import Mathlib

/-!
Verification of the data-wrangling core of `src/dashboard.py` (a pandas/streamlit
dashboard).  The pure reshaping, filtering, aggregation and windowing logic is
embedded shallowly: dataframes become lists of rows, numeric cells become
`Option Rat` (`none` models a NaN/missing cell), and the fatal `st.stop()` paths
become `none` results.  Column headers that are fed to Python's `float()` are
embedded as their parse outcome (see `Label`), since the claims only depend on
whether parsing succeeds and on the truncated value.
-/

set_option maxHeartbeats 1000000

namespace Dashboard

/-! ## String primitives

The Python code compares header and cell text with `.strip()`, `.lower()` and
`.replace("_", " ")`.  All strings this program compares are ASCII, so these are
embedded character-wise (which also keeps them reducible by the kernel). -/

/-- Python `.lower()` on the ASCII names this program compares. -/
def lowerStr (s : String) : String := String.mk (s.data.map Char.toLower)

/-- Whitespace stripped by Python `.strip()` in these inputs. -/
def isSpaceChar (c : Char) : Bool := c = ' ' || c = '\t' || c = '\n' || c = '\r'

/-- Python `str.strip()`: drop leading and trailing whitespace. -/
def trimStr (s : String) : String :=
  String.mk (((s.data.dropWhile isSpaceChar).reverse.dropWhile isSpaceChar).reverse)

/-- Python `.replace("_", " ")`; the pattern is a single character, so it acts
character-wise. -/
def underscoreToSpace (s : String) : String :=
  String.mk (s.data.map fun c => if c = '_' then ' ' else c)

/-! ## Cells and header labels -/

/-- A numeric data cell: `some q` is a numeric value, `none` a missing (NaN) cell. -/
abbrev Cell := Option Rat

/-- Truncation toward zero, the behaviour of Python `int(float(...))` and of the
numpy float→int casts used by `astype(int)` / `astype("Int64")`.  The numerator
already carries the sign of a normalised `Rat`, so `Int.tdiv` (division rounding
toward zero) implements it. -/
def pyTrunc (q : Rat) : Int := q.num.tdiv (q.den : Int)

/-- Embedded outcome of parsing a (stripped) column header as a number.

* `num y` — both Python `float()` and `pd.to_numeric(..., errors="coerce")`
  parse the header, and truncation toward zero gives `y` (e.g. `"1960"`,
  `"1960.0"`); both parsers agree on the numeric value whenever both succeed.
* `pyNum y s` — Python `float()` parses it, truncating to `y`, but
  `pd.to_numeric` rejects it (e.g. the underscored literal `"1_960"`).
* `txt s` — `float()` raises, e.g. `"Country"`.

Headers for which `int(float(...))` raises `OverflowError` (infinities) or
`ValueError` on the `int` step are covered by `txt`, since `_is_year` catches
every exception. -/
inductive Label where
  | num (y : Int)
  | pyNum (y : Int) (s : String)
  | txt (s : String)
deriving DecidableEq

/-- Result of `int(float(str(c)))` with all exceptions caught. -/
def floatTrunc : Label → Option Int
  | .num y => some y
  | .pyNum y _ => some y
  | .txt _ => none

/-- Result of `pd.to_numeric(c, errors="coerce")` followed by the truncating
`astype(int)` cast (src/dashboard.py:66-67); `none` is a coercion failure (NaN). -/
def numericTrunc : Label → Option Int
  | .num y => some y
  | _ => none

/-- Embeds `_is_year` (src/dashboard.py:51-56): the header parses under `float`
and truncates into the closed range [1700, 2100]. -/
def is_year (c : Label) : Bool :=
  match floatTrunc c with
  | some y => decide (1700 ≤ y) && decide (y ≤ 2100)
  | none => false

/-- The year-column detection comprehension `[c for c in df.columns if _is_year(c)]`
(src/dashboard.py:58). -/
def detectYears (cols : List Label) : List Label := cols.filter is_year

/-! ## Wide tables and the wide→long reshaper -/

/-- A wide indicator table as `_melt_years` sees it after the caller's header
stripping and identifier-column rename (src/dashboard.py:44, 81, 92-95, 103-106):
the identifier column is split out, the remaining headers are parse outcomes, and
each row is its identifier cell (coerced to text) plus data cells aligned with
`cols`.  The identifier-fallback scan of src/dashboard.py:47-49 never fires,
because every caller renames its identifier column to "Country" first. -/
structure WideTable where
  cols : List Label
  rows : List (String × List Cell)
deriving DecidableEq

/-- A row of the tidy (long) output of `_melt_years`: identifier, integer year,
raw cell value. -/
structure TidyRow where
  id : String
  year : Int
  value : Cell
deriving DecidableEq

/-- Insertion step of a stable sort keyed by `key`. -/
def insertBy {α β : Type} [LinearOrder β] (key : α → β) (a : α) : List α → List α
  | [] => [a]
  | x :: xs => if key a < key x then a :: x :: xs else x :: insertBy key a xs

/-- Stable insertion sort keyed by `key`, embedding `sort_values`/sorted `groupby`
output.  (pandas' default `sort_values` does not promise a tie order; no claim
depends on one.) -/
def sortBy {α β : Type} [LinearOrder β] (key : α → β) : List α → List α
  | [] => []
  | x :: xs => insertBy key x (sortBy key xs)

/-- Detected year columns together with their positions among the data columns. -/
def yearIdxCols (cols : List Label) : List (Nat × Label) :=
  cols.enum.filter fun p => is_year p.2

/-- The `pd.melt` step (src/dashboard.py:64-65): one emitted
(identifier, year label, cell) row per (year column, table row) cell, in
pandas' column-major order; `pd.melt` keeps NaN cells. -/
def meltEmitted (t : WideTable) : List (String × Label × Cell) :=
  (yearIdxCols t.cols).flatMap fun p =>
    t.rows.map fun r => (r.1, p.2, r.2.getD p.1 none)

/-- The year coercion and drop step (src/dashboard.py:66-67): coerce the year
label with `pd.to_numeric`, drop the emitted rows whose label fails that
coercion, truncate to `int`. -/
def meltKept (t : WideTable) : List TidyRow :=
  (meltEmitted t).filterMap fun e =>
    (numericTrunc e.2.1).map fun y => TidyRow.mk e.1 y e.2.2

/-- Embeds `_melt_years` (src/dashboard.py:36-68): melt the detected year
columns, coerce/drop/truncate the year, and sort ascending by year. -/
def meltYears (t : WideTable) : List TidyRow :=
  sortBy (fun r => r.year) (meltKept t)

/-- Embeds `_country_filter` (src/dashboard.py:70-71): keep the rows whose
identifier, stripped and lower-cased, equals the lower-cased target name. -/
def country_filter (rows : List TidyRow) (name : String) : List TidyRow :=
  rows.filter fun r => lowerStr (trimStr r.id) == lowerStr name

/-- The fixed target country (src/dashboard.py:31). -/
def COUNTRY : String := "China"

/-! ## The CO₂ loader -/

/-- A (Year, Value) point of a tidy indicator series. -/
structure YV where
  year : Int
  value : Cell
deriving DecidableEq

/-- The long CO₂ table with the megatonne conversion column
`long["CO₂ (Mt)"] = long["CO2_kt"] / 1000.0` (src/dashboard.py:83); a NaN cell
stays NaN. -/
def mtRows (t : WideTable) : List TidyRow :=
  (meltYears t).map fun r => { r with value := r.value.map fun q => q / 1000 }

/-- The China CO₂ series `co2_cn` (src/dashboard.py:84): country-filter the long
table and keep `[Year, CO₂ (Mt)]`. -/
def co2_cn (t : WideTable) : List YV :=
  (country_filter (mtRows t) COUNTRY).map fun r => ⟨r.year, r.value⟩

/-- The distinct group keys of a `groupby("Year")`, in the ascending key order
pandas produces. -/
def distinctYears (rows : List TidyRow) : List Int :=
  sortBy id ((rows.map fun r => r.year).dedup)

/-- A year group's column sum; pandas `sum` skips NaN cells (an all-NaN or empty
group sums to 0). -/
def groupTotal (rows : List TidyRow) (y : Int) : Rat :=
  ((rows.filter fun r => r.year == y).map fun r => r.value.getD 0).sum

/-- The world series `co2_world` (src/dashboard.py:85): group the whole long
table — every row, with no country filtering — by year and sum the Mt column. -/
def co2_world (t : WideTable) : List YV :=
  (distinctYears (mtRows t)).map fun y => ⟨y, some (groupTotal (mtRows t) y)⟩

/-! ## Window bounds and windowing -/

/-- Maximum of a list of integers (`none` on the empty list).  Embeds Python's
`max(...)`, which this program only applies to nonempty collections. -/
def listMax : List Int → Option Int
  | [] => none
  | x :: xs => some (match listMax xs with | some m => max x m | none => x)

/-- Minimum of a list of integers (`none` on the empty list). -/
def listMin : List Int → Option Int
  | [] => none
  | x :: xs => some (match listMin xs with | some m => min x m | none => x)

/-- A series' `s["Year"].min()`. -/
def seriesMin (s : List YV) : Option Int := listMin (s.map fun r => r.year)

/-- A series' `s["Year"].max()`. -/
def seriesMax (s : List YV) : Option Int := listMax (s.map fun r => r.year)

/-- Embeds `year_min = max(s["Year"].min() for s in [...])` (src/dashboard.py:182).
On the nonempty series the program feeds it, every `seriesMin` is `some`. -/
def year_min (ss : List (List YV)) : Option Int := listMax (ss.filterMap seriesMin)

/-- Embeds `year_max = min(s["Year"].max() for s in [...])` (src/dashboard.py:183). -/
def year_max (ss : List (List YV)) : Option Int := listMin (ss.filterMap seriesMax)

/-- Series `s'` has a year range shrunk from `s`: its minimum year is no
smaller and its maximum year no larger. -/
def narrower (s s' : List YV) : Prop :=
  (∀ m m', seriesMin s = some m → seriesMin s' = some m' → m ≤ m') ∧
  (∀ M M', seriesMax s = some M → seriesMax s' = some M' → M' ≤ M)

/-- Embeds `window` (src/dashboard.py:189-190): keep the rows with
`yr0 <= Year <= yr1`. -/
def window (yr0 yr1 : Int) (s : List YV) : List YV :=
  s.filter fun r => decide (yr0 ≤ r.year) && decide (r.year ≤ yr1)

/-! ## Inner merge and the ratio series -/

/-- Embeds `pd.merge(l, r, on="Year", how="inner")` for single-value series:
left-row order, each left row paired with every right row of equal year. -/
def mergeYear (l r : List YV) : List (Int × Cell × Cell) :=
  l.flatMap fun a => (r.filter fun b => b.year == a.year).map fun b => (a.year, a.value, b.value)

/-- Embeds the `df_ratio` computation (src/dashboard.py:286-292): inner-merge the
windowed China and world series on Year and append
`China_%_World = CO2_Mt / world * 100`; a NaN operand yields a NaN ratio. -/
def ratioRows (cn world : List YV) : List (Int × Cell) :=
  (mergeYear cn world).map fun p =>
    (p.1, match p.2.1, p.2.2 with
      | some c, some w => some (c / w * 100)
      | _, _ => none)

/-- The years carried by a series. -/
def yearsOf (s : List YV) : List Int := s.map fun r => r.year

/-! ## The disaster loader -/

/-- An untyped spreadsheet cell as `read_excel` delivers it: a number, a text, or
an empty/NaN cell.  Numeric-looking text is delivered as a number by
`read_excel`, so it is embedded as `num`. -/
inductive PValue where
  | num (q : Rat)
  | str (s : String)
  | null
deriving DecidableEq

/-- Embeds `pd.to_numeric(cell, errors="coerce")` on spreadsheet cells. -/
def toNumeric : PValue → Option Rat
  | .num q => some q
  | .str _ => none
  | .null => none

/-- Embeds `astype(str)` on a cell, as far as the program compares the result
(only ever against the lower-cased country name; the exact float rendering is
immaterial because it can never equal a country name). -/
def pvText : PValue → String
  | .num q => toString q
  | .str s => s
  | .null => "nan"

/-- The disaster table after the header strip of src/dashboard.py:136: named
string columns, rows of untyped cells aligned with `cols`. -/
structure Table where
  cols : List String
  rows : List (List PValue)
deriving DecidableEq

/-- Position of a named column, if present. -/
def colIdx (t : Table) (name : String) : Option Nat :=
  t.cols.findIdx? fun c => c == name

/-- The tidy-shape test of src/dashboard.py:139: a `Year` column plus a
count-like column. -/
def tidyShape (t : Table) : Bool :=
  t.cols.contains "Year" && (t.cols.contains "Disasters" || t.cols.contains "Disaster Count")

/-- Header normalisation of the raw-branch scan: `c.lower().replace("_", " ")`
(src/dashboard.py:150). -/
def normHeader (s : String) : String := underscoreToSpace (lowerStr s)

/-- Membership test of the raw-branch scan: the normalised header is
`"start year"` or `"year"`. -/
def isYearName (s : String) : Bool :=
  normHeader s == "start year" || normHeader s == "year"

/-- The first column the loop of src/dashboard.py:148-152 accepts, if any. -/
def findYearIdx (cols : List String) : Option Nat := cols.findIdx? isYearName

/-- Cell of a row at a column position; pandas delivers a missing cell as NaN. -/
def cellAt (row : List PValue) (i : Nat) : PValue := row.getD i .null

/-- Raw-branch rows surviving `to_numeric` + `dropna` on the year column
(src/dashboard.py:161-165), tagged with their numeric year. -/
def rawYearRows (t : Table) (j : Nat) : List (Rat × List PValue) :=
  t.rows.filterMap fun r => (toNumeric (cellAt r j)).map fun q => (q, r)

/-- The raw branch's country predicate: when a `Country` column exists the row
must pass `_country_filter` for China, otherwise every row passes
(src/dashboard.py:162-165). -/
def chinaRow (t : Table) (r : List PValue) : Bool :=
  match colIdx t "Country" with
  | some k => lowerStr (trimStr (pvText (cellAt r k))) == lowerStr COUNTRY
  | none => true

/-- The raw branch's effective event rows: year-coercible and, if applicable,
China. -/
def effRows (t : Table) (j : Nat) : List (Rat × List PValue) :=
  (rawYearRows t j).filter fun p => chinaRow t p.2

/-- The raw branch's `groupby("Year").size()` output (src/dashboard.py:167-168):
one `(year, count)` pair per distinct numeric year, in ascending year order, the
year truncated to `int` afterwards.  (Truncation toward zero is monotone, so the
final `sort_values` is the identity here.) -/
def rawCounts (t : Table) (j : Nat) : List (Int × PValue) :=
  (sortBy id ((effRows t j).map fun p => p.1).dedup).map fun q =>
    (pyTrunc q, PValue.num (((effRows t j).filter fun p => p.1 == q).length : Rat))

/-- The tidy branch (src/dashboard.py:139-144): select `Year` and the count
column (renaming `Disaster Count` when needed), coerce and truncate `Year`, drop
rows whose year fails coercion, and sort by year.  (pandas' `astype("Int64")`
would raise on a fractional year; no claim exercises that corner, and truncation
is the cast's behaviour on integral floats.) -/
def tidyOut (t : Table) : List (Int × PValue) :=
  let jy := (colIdx t "Year").getD 0
  let jd := ((colIdx t "Disasters").or (colIdx t "Disaster Count")).getD 0
  sortBy (fun p => p.1)
    (t.rows.filterMap fun r =>
      (toNumeric (cellAt r jy)).map fun q => (pyTrunc q, cellAt r jd))

/-- Embeds `load_disasters` (src/dashboard.py:127-168).  `none` models the fatal
`st.error` + `st.stop()` of the year-column-not-found path. -/
def load_disasters (t : Table) : Option (List (Int × PValue)) :=
  if tidyShape t then some (tidyOut t)
  else
    match findYearIdx t.cols with
    | some j => some (rawCounts t j)
    | none => none

/-! ## Proof-support decomposition of the melt -/

/-- The tidy rows a single detected year column contributes to `meltKept`:
nothing when the label fails `pd.to_numeric`, otherwise one row per table row. -/
def colBlock (rows : List (String × List Cell)) (p : Nat × Label) : List TidyRow :=
  match numericTrunc p.2 with
  | some y => rows.map fun r => TidyRow.mk r.1 y (r.2.getD p.1 none)
  | none => []

/-- Detected year columns whose label also survives `pd.to_numeric`. -/
def goodYearIdxCols (cols : List Label) : List (Nat × Label) :=
  (yearIdxCols cols).filter fun p => (numericTrunc p.2).isSome

/-- Detected year columns whose label fails `pd.to_numeric` (their emitted rows
are dropped). -/
def badYears (cols : List Label) : List Label :=
  cols.filter fun c => is_year c && (numericTrunc c).isNone

/-! ## Concrete example tables

Small inputs the counterexamples and witnesses below evaluate the pipeline on. -/

/-- A CO₂ table with a duplicated China row: yearly_co2-style, one year column. -/
def t2 : WideTable := ⟨[Label.num 2000], [("China", [some 1]), ("China", [some 2])]⟩

/-- The raw disaster table of the spec's example: three China events, two in
2008 and one in 2009. -/
def t4 : Table :=
  ⟨["Start Year", "Country"],
    [[PValue.num 2008, PValue.str "China"],
     [PValue.num 2008, PValue.str "China"],
     [PValue.num 2009, PValue.str "China"]]⟩

/-- A disaster table with a `Year` column but no count-like column. -/
def t5 : Table := ⟨["Year"], [[PValue.num 2008], [PValue.num 2008], [PValue.num 2009]]⟩

/-- A CO₂ table with duplicated China rows and a null cell. -/
def t7 : WideTable :=
  ⟨[Label.num 2000, Label.num 2001],
    [("China", [some 1, none]), ("China", [some 2, some 3])]⟩

/-- A one-celled wide table whose only cell is null. -/
def t8 : WideTable := ⟨[Label.num 1990], [("China", [none])]⟩

/-- The CO₂ table of the spec's end-to-end scenario, restricted to one year
column: two China rows and a USA row. -/
def t10 : WideTable :=
  ⟨[Label.num 2019], [("China", [some 10000]), ("USA", [some 90000])]⟩

/-- Two small series used to instantiate the window-bounds theorem. -/
def exSeries : List (List YV) :=
  [[⟨1990, none⟩, ⟨2000, none⟩], [⟨1995, none⟩, ⟨2005, none⟩]]

/-- The two series of `exSeries` with the first one narrowed to a sub-range. -/
def exSeriesNarrow : List (List YV) :=
  [[⟨1992, none⟩, ⟨1998, none⟩], [⟨1995, none⟩, ⟨2005, none⟩]]

/-! ## Generic list lemmas -/

theorem insertBy_perm {α β : Type} [LinearOrder β] (key : α → β) (a : α) :
    ∀ l : List α, (insertBy key a l).Perm (a :: l)
  | [] => List.Perm.refl _
  | x :: xs => by
    unfold insertBy
    by_cases h : key a < key x
    · simp [h]
    · simp only [h, if_false]
      exact ((insertBy_perm key a xs).cons x).trans (List.Perm.swap a x xs)

theorem sortBy_perm {α β : Type} [LinearOrder β] (key : α → β) :
    ∀ l : List α, (sortBy key l).Perm l
  | [] => List.Perm.refl _
  | x :: xs =>
    (insertBy_perm key x (sortBy key xs)).trans ((sortBy_perm key xs).cons x)

theorem mem_insertBy {α β : Type} [LinearOrder β] (key : α → β) (a b : α) (l : List α) :
    b ∈ insertBy key a l ↔ b = a ∨ b ∈ l := by
  rw [(insertBy_perm key a l).mem_iff, List.mem_cons]

theorem pairwise_insertBy {α β : Type} [LinearOrder β] (key : α → β) (a : α) :
    ∀ l : List α, l.Pairwise (fun u v => key u ≤ key v) →
      (insertBy key a l).Pairwise (fun u v => key u ≤ key v)
  | [], _ => List.pairwise_singleton _ a
  | x :: xs, h => by
    unfold insertBy
    rcases List.pairwise_cons.mp h with ⟨hx, hxs⟩
    by_cases hlt : key a < key x
    · simp only [hlt, if_true]
      refine List.pairwise_cons.mpr ⟨?_, h⟩
      intro b hb
      rcases List.mem_cons.mp hb with rfl | hb
      · exact le_of_lt hlt
      · exact le_of_lt (lt_of_lt_of_le hlt (hx b hb))
    · simp only [hlt, if_false]
      refine List.pairwise_cons.mpr ⟨?_, pairwise_insertBy key a xs hxs⟩
      intro b hb
      rcases (mem_insertBy key a b xs).mp hb with rfl | hb
      · exact le_of_not_lt hlt
      · exact hx b hb

theorem sortBy_pairwise {α β : Type} [LinearOrder β] (key : α → β) :
    ∀ l : List α, (sortBy key l).Pairwise (fun u v => key u ≤ key v)
  | [] => List.Pairwise.nil
  | x :: xs => pairwise_insertBy key x (sortBy key xs) (sortBy_pairwise key xs)

theorem countP_flatMap {α γ : Type} (l : List α) (f : α → List γ) (P : γ → Bool) :
    ((l.flatMap f).countP P) = (l.map fun a => (f a).countP P).sum := by
  induction l with
  | nil => rfl
  | cons a l ih => simp [List.flatMap_cons, List.countP_append, ih]

theorem filter_flatMap {α γ : Type} (l : List α) (f : α → List γ) (P : γ → Bool) :
    ((l.flatMap f).filter P) = l.flatMap fun a => (f a).filter P := by
  induction l with
  | nil => rfl
  | cons a l ih => simp [List.flatMap_cons, List.filter_append, ih]

/-! ## Decomposing the melt into column blocks -/

theorem filterMap_some_eq_map {α β : Type} (f : α → β) (l : List α) :
    (l.filterMap fun a => some (f a)) = l.map f := by
  induction l with
  | nil => rfl
  | cons a l ih => simp [List.filterMap_cons, ih]

theorem filterMap_emit (rows : List (String × List Cell)) :
    ∀ l : List (Nat × Label),
      ((l.flatMap fun p => rows.map fun r => (r.1, p.2, r.2.getD p.1 none)).filterMap fun e =>
          (numericTrunc e.2.1).map fun y => TidyRow.mk e.1 y e.2.2)
        = l.flatMap (colBlock rows) := by
  intro l
  induction l with
  | nil => rfl
  | cons p l ih =>
    rw [List.flatMap_cons, List.flatMap_cons, List.filterMap_append, ih]
    congr 1
    rw [List.filterMap_map]
    cases h : numericTrunc p.2 with
    | some y =>
      have hfun : ((fun e : String × Label × Cell =>
            (numericTrunc e.2.1).map fun yy => TidyRow.mk e.1 yy e.2.2) ∘
            fun r : String × List Cell => (r.1, p.2, r.2.getD p.1 none))
          = fun r : String × List Cell => some (TidyRow.mk r.1 y (r.2.getD p.1 none)) := by
        funext r
        simp [Function.comp, h]
      rw [hfun, filterMap_some_eq_map]
      simp [colBlock, h]
    | none =>
      simp [colBlock, h, Function.comp]

theorem meltKept_eq_blocks (t : WideTable) :
    meltKept t = (yearIdxCols t.cols).flatMap (colBlock t.rows) :=
  filterMap_emit t.rows (yearIdxCols t.cols)

theorem length_flatMap' {α γ : Type} (l : List α) (f : α → List γ) :
    (l.flatMap f).length = (l.map fun a => (f a).length).sum := by
  induction l with
  | nil => rfl
  | cons a l ih => simp [List.flatMap_cons, ih]

theorem meltYears_countP (t : WideTable) (P : TidyRow → Bool) :
    (meltYears t).countP P
      = ((yearIdxCols t.cols).map fun p => (colBlock t.rows p).countP P).sum := by
  unfold meltYears
  rw [(sortBy_perm (fun r : TidyRow => r.year) (meltKept t)).countP_eq,
    meltKept_eq_blocks, countP_flatMap]

theorem colBlock_length (rows : List (String × List Cell)) (p : Nat × Label) :
    (colBlock rows p).length = if (numericTrunc p.2).isSome then rows.length else 0 := by
  cases h : numericTrunc p.2 <;> simp [colBlock, h]

theorem sum_ite_isSome (n : Nat) (l : List (Nat × Label)) :
    (l.map fun p => if (numericTrunc p.2).isSome then n else 0).sum
      = n * (l.countP fun p => (numericTrunc p.2).isSome) := by
  induction l with
  | nil => simp
  | cons p l ih =>
    by_cases h : (numericTrunc p.2).isSome
    · simp [h, ih, List.countP_cons, Nat.mul_add]
      omega
    · simp [h, ih, List.countP_cons]

theorem countP_enumFrom (R : Label → Bool) :
    ∀ (cols : List Label) (n : Nat),
      ((List.enumFrom n cols).countP fun p => R p.2) = cols.countP R
  | [], _ => rfl
  | c :: l, n => by
    simp [List.enumFrom, List.countP_cons, countP_enumFrom R l (n + 1)]

theorem countP_enum (R : Label → Bool) (cols : List Label) :
    (cols.enum.countP fun p => R p.2) = cols.countP R :=
  countP_enumFrom R cols 0

theorem yearIdxCols_countP (cols : List Label) (Q : Label → Bool) :
    ((yearIdxCols cols).countP fun p => Q p.2) = cols.countP fun c => is_year c && Q c := by
  unfold yearIdxCols
  rw [List.countP_filter]
  exact (countP_enum (fun c => Q c && is_year c) cols).trans
    (List.countP_congr fun a _ => by rw [Bool.and_comm])

theorem countP_year_split (cols : List Label) :
    cols.countP is_year
      = (cols.countP fun c => is_year c && (numericTrunc c).isSome)
        + (cols.countP fun c => is_year c && (numericTrunc c).isNone) := by
  induction cols with
  | nil => rfl
  | cons c l ih =>
    simp only [List.countP_cons, ih]
    by_cases h : is_year c
    · cases hn : numericTrunc c <;> simp [h, hn] <;> omega
    · simp [h]

theorem meltYears_length_blocks (t : WideTable) :
    (meltYears t).length
      = t.rows.length * ((yearIdxCols t.cols).countP fun p => (numericTrunc p.2).isSome) := by
  unfold meltYears
  rw [(sortBy_perm (fun r : TidyRow => r.year) (meltKept t)).length_eq,
    meltKept_eq_blocks, length_flatMap']
  have : ((yearIdxCols t.cols).map fun p => (colBlock t.rows p).length)
      = (yearIdxCols t.cols).map fun p => if (numericTrunc p.2).isSome then t.rows.length else 0 := by
    apply List.map_congr_left
    intro p _
    exact colBlock_length t.rows p
  rw [this, sum_ite_isSome]

/-! ## C3: row count of the reshaper -/

/-- C3: the reshaper's output row count is (input rows) × (detected year
columns) minus the emitted rows whose year label fails numeric coercion (one
per input row for each detected-but-uncoercible column). -/
theorem c3_reshaper_row_count (t : WideTable) :
    (meltYears t).length
      = t.rows.length * (detectYears t.cols).length
        - t.rows.length * (badYears t.cols).length := by
  have hgood : ((yearIdxCols t.cols).countP fun p => (numericTrunc p.2).isSome)
      = t.cols.countP fun c => is_year c && (numericTrunc c).isSome :=
    yearIdxCols_countP t.cols fun c => (numericTrunc c).isSome
  rw [meltYears_length_blocks, hgood]
  unfold detectYears badYears
  rw [← List.countP_eq_length_filter, ← List.countP_eq_length_filter,
    countP_year_split t.cols, Nat.mul_add, Nat.add_sub_cancel]

/-! ## C8: one output row per cell, null cells included -/

theorem blocks_value_countP (rows : List (String × List Cell)) (P : Cell → Bool) :
    ∀ l : List (Nat × Label),
      (l.map fun p => (colBlock rows p).countP fun r => P r.value).sum
        = ((l.filter fun p => (numericTrunc p.2).isSome).map fun p =>
            rows.countP fun r => P (r.2.getD p.1 none)).sum := by
  intro l
  induction l with
  | nil => rfl
  | cons p l ih =>
    cases h : numericTrunc p.2 with
    | some y =>
      have hhead : ((colBlock rows p).countP fun r => P r.value)
          = rows.countP fun r => P (r.2.getD p.1 none) := by
        simp only [colBlock, h, List.countP_map]
        rfl
      simp [h, hhead, ih]
    | none =>
      have hhead : ((colBlock rows p).countP fun r => P r.value) = 0 := by
        simp [colBlock, h]
      simp [h, hhead, ih]

theorem meltYears_value_countP (t : WideTable) (P : Cell → Bool) :
    ((meltYears t).countP fun r => P r.value)
      = ((goodYearIdxCols t.cols).map fun p =>
          t.rows.countP fun r => P (r.2.getD p.1 none)).sum := by
  rw [meltYears_countP, blocks_value_countP]
  rfl

/-- C8 (amended): the reshaper emits exactly one row per (row, coercible year
column) cell regardless of the cell's nullity — null cells become rows whose
value is missing, and non-null cells rows whose value is present. -/
theorem c8_melt_keeps_null_cells (t : WideTable) :
    ((meltYears t).filter fun r => r.value.isNone).length
      = ((goodYearIdxCols t.cols).map fun p =>
          (t.rows.filter fun r => (r.2.getD p.1 none).isNone).length).sum ∧
    ((meltYears t).filter fun r => r.value.isSome).length
      = ((goodYearIdxCols t.cols).map fun p =>
          (t.rows.filter fun r => (r.2.getD p.1 none).isSome).length).sum := by
  refine ⟨?_, ?_⟩
  · rw [← List.countP_eq_length_filter, meltYears_value_countP t Option.isNone]
    refine congrArg List.sum (List.map_congr_left fun p _ => ?_)
    exact List.countP_eq_length_filter _ _
  · rw [← List.countP_eq_length_filter, meltYears_value_countP t Option.isSome]
    refine congrArg List.sum (List.map_congr_left fun p _ => ?_)
    exact List.countP_eq_length_filter _ _

/-- C8 counterexample: a null (identifier, year) cell produces an output row
(with a missing value), where the claim says it produces none. -/
theorem c8_null_cell_counterexample :
    meltYears t8 = [⟨"China", 1990, none⟩] ∧ (meltYears t8).length ≠ 0 := by
  refine ⟨by decide, by decide⟩

/-! ## C6: the Year-Column Detector -/

/-- C6: a label is accepted by `_is_year` exactly when its `float` parse
succeeds and truncates into [1700, 2100]; the detector's output is the
order-preserving sublist of accepted labels; and it is nonempty as soon as one
label is accepted. -/
theorem c6_year_detector (cols : List Label) :
    (∀ c : Label, is_year c = true ↔ ∃ y, floatTrunc c = some y ∧ 1700 ≤ y ∧ y ≤ 2100) ∧
    (detectYears cols).Sublist cols ∧
    ((∃ c ∈ cols, is_year c = true) → detectYears cols ≠ []) := by
  refine ⟨?_, List.filter_sublist cols, ?_⟩
  · intro c
    cases c with
    | num y => simp [is_year, floatTrunc]
    | pyNum y s => simp [is_year, floatTrunc]
    | txt s => simp [is_year, floatTrunc]
  · rintro ⟨c, hc, hy⟩
    exact List.ne_nil_of_mem (List.mem_filter.mpr ⟨hc, hy⟩)

/-! ## C9: the Country Filter -/

/-- C9: the country filter keeps exactly the rows whose identifier, stripped
and lower-cased, equals the lower-cased target name, and it is idempotent. -/
theorem c9_country_filter (rows : List TidyRow) (name : String) :
    (∀ r : TidyRow, r ∈ country_filter rows name ↔
        r ∈ rows ∧ lowerStr (trimStr r.id) = lowerStr name) ∧
    country_filter (country_filter rows name) name = country_filter rows name := by
  constructor
  · intro r
    simp [country_filter, List.mem_filter]
  · simp [country_filter, List.filter_filter]

/-! ## C7: year order and uniqueness of loaded series -/

theorem meltYears_sorted (t : WideTable) :
    (meltYears t).Pairwise fun a b => a.year ≤ b.year :=
  sortBy_pairwise (fun r : TidyRow => r.year) (meltKept t)

theorem co2_cn_sorted (t : WideTable) :
    (co2_cn t).Pairwise fun a b => a.year ≤ b.year := by
  unfold co2_cn mtRows
  refine List.Pairwise.map _ (fun a b h => h) ?_
  refine List.Pairwise.sublist (List.filter_sublist _) ?_
  exact List.Pairwise.map _ (fun a b h => h) (meltYears_sorted t)

theorem co2_cn_countP (t : WideTable) (P : Int → Bool) :
    ((co2_cn t).countP fun v => P v.year)
      = ((meltKept t).countP fun r =>
          P r.year && (lowerStr (trimStr r.id) == lowerStr COUNTRY)) := by
  unfold co2_cn country_filter mtRows meltYears
  rw [List.countP_map, List.countP_filter, List.countP_map]
  exact List.Perm.countP_eq _ (sortBy_perm (fun r : TidyRow => r.year) (meltKept t))

theorem co2_cn_count_years (t : WideTable) (y : Int) :
    (((co2_cn t).map fun v => v.year).count y)
      = ((meltKept t).countP fun r =>
          (r.year == y) && (lowerStr (trimStr r.id) == lowerStr COUNTRY)) := by
  show (((co2_cn t).map fun v => v.year).countP fun x => x == y) = _
  rw [List.countP_map]
  exact co2_cn_countP t fun x => x == y

theorem colBlock_year_countP (rows : List (String × List Cell)) (Q : String → Bool)
    (y y' : Int) (p : Nat × Label) (hh : numericTrunc p.2 = some y') :
    ((colBlock rows p).countP fun r => (r.year == y) && Q r.id)
      = rows.countP fun r => (y' == y) && Q r.1 := by
  simp only [colBlock, hh, List.countP_map]
  rfl

theorem blocks_zero_of_no_year (rows : List (String × List Cell)) (Q : String → Bool)
    (y : Int) :
    ∀ l : List (Nat × Label), (∀ p ∈ l, numericTrunc p.2 ≠ some y) →
      (l.map fun p => (colBlock rows p).countP fun r => (r.year == y) && Q r.id).sum = 0
  | [], _ => rfl
  | p :: l, h => by
    have ht := blocks_zero_of_no_year rows Q y l fun p' hp' =>
      h p' (List.mem_cons_of_mem p hp')
    have hhead : ((colBlock rows p).countP fun r => (r.year == y) && Q r.id) = 0 := by
      cases hh : numericTrunc p.2 with
      | some y' =>
        have hne : (y' == y) = false :=
          beq_eq_false_iff_ne.mpr fun e => h p (List.mem_cons_self p l) (by rw [hh, e])
        rw [colBlock_year_countP rows Q y y' p hh]
        simp [hne]
      | none => simp [colBlock, hh]
    simp [hhead, ht]

theorem blocks_year_count_le (rows : List (String × List Cell)) (Q : String → Bool)
    (y : Int) :
    ∀ l : List (Nat × Label), ((l.filterMap fun p => numericTrunc p.2).Nodup) →
      (l.map fun p => (colBlock rows p).countP fun r => (r.year == y) && Q r.id).sum
        ≤ rows.countP fun r => Q r.1
  | [], _ => Nat.zero_le _
  | p :: l, h => by
    cases hh : numericTrunc p.2 with
    | none =>
      have e : List.filterMap (fun p : Nat × Label => numericTrunc p.2) (p :: l)
          = List.filterMap (fun p : Nat × Label => numericTrunc p.2) l :=
        List.filterMap_cons_none hh
      have h' : ((l.filterMap fun p => numericTrunc p.2)).Nodup := by rwa [e] at h
      have hhead : ((colBlock rows p).countP fun r => (r.year == y) && Q r.id) = 0 := by
        simp [colBlock, hh]
      simpa [hhead] using blocks_year_count_le rows Q y l h'
    | some y' =>
      have e : List.filterMap (fun p : Nat × Label => numericTrunc p.2) (p :: l)
          = y' :: List.filterMap (fun p : Nat × Label => numericTrunc p.2) l :=
        List.filterMap_cons_some hh
      rw [e] at h
      obtain ⟨hnotmem, htail⟩ := List.nodup_cons.mp h
      by_cases hyy : y' = y
      · rw [hyy] at hh
        have hzero := blocks_zero_of_no_year rows Q y l fun p' hp' he =>
          absurd (List.mem_filterMap.mpr ⟨p', hp', he⟩) (hyy ▸ hnotmem)
        have hhead : ((colBlock rows p).countP fun r => (r.year == y) && Q r.id)
            = rows.countP fun r => Q r.1 := by
          rw [colBlock_year_countP rows Q y y p hh]
          exact List.countP_congr fun a _ => by simp
        simp [hhead, hzero]
      · have hne : (y' == y) = false := beq_eq_false_iff_ne.mpr hyy
        have hhead : ((colBlock rows p).countP fun r => (r.year == y) && Q r.id) = 0 := by
          rw [colBlock_year_countP rows Q y y' p hh]
          simp [hne]
        simpa [hhead] using blocks_year_count_le rows Q y l htail

/-- C7 (amended): every China CO₂ series the loader produces has its years in
non-decreasing order; the claimed uniqueness and strict increase hold exactly
when the source has at most one row matching the target country and no two
coercible year columns truncate to the same year.  (The claim's further part —
missing values as absent rows — fails as well; see the counterexample, whose
null cell survives as a row with a missing value.) -/
theorem c7_loaded_series_years (t : WideTable) :
    (((co2_cn t).map fun v => v.year).Pairwise fun a b => a ≤ b) ∧
    ((t.rows.filter fun r => lowerStr (trimStr r.1) == lowerStr COUNTRY).length ≤ 1 →
      ((yearIdxCols t.cols).filterMap fun p => numericTrunc p.2).Nodup →
      (((co2_cn t).map fun v => v.year).Pairwise fun a b => a < b)) := by
  have hle : ((co2_cn t).map fun v => v.year).Pairwise fun a b => a ≤ b :=
    List.pairwise_map.mpr (co2_cn_sorted t)
  refine ⟨hle, fun hu hnd => ?_⟩
  have hnodup : ((co2_cn t).map fun v => v.year).Nodup := by
    rw [List.nodup_iff_count_le_one]
    intro y
    rw [co2_cn_count_years t y]
    rw [meltKept_eq_blocks, countP_flatMap]
    refine le_trans
      (blocks_year_count_le t.rows (fun s => lowerStr (trimStr s) == lowerStr COUNTRY) y
        (yearIdxCols t.cols) hnd) ?_
    rwa [List.countP_eq_length_filter]
  exact (hle.and hnodup).imp fun h => lt_of_le_of_ne h.1 h.2

/-- C7 counterexample: on a CO₂ file with two China rows and a null cell, the
loaded China series has duplicate (hence not strictly increasing) years, and a
missing value appears as a row whose value is null rather than as an absent
row. -/
theorem c7_counterexample :
    (¬ ((co2_cn t7).map fun v => v.year).Pairwise fun a b => a < b) ∧
    (¬ ((co2_cn t7).map fun v => v.year).Nodup) ∧
    (∃ r ∈ co2_cn t7, r.value = none) := by
  refine ⟨by decide, by decide, by decide⟩

/-! ## C1: the window/intersection bounds -/

theorem listMax_spec : ∀ l : List Int, l ≠ [] →
    ∃ m, listMax l = some m ∧ m ∈ l ∧ ∀ x ∈ l, x ≤ m := by
  intro l
  induction l with
  | nil => intro h; exact absurd rfl h
  | cons x xs ih =>
    intro _
    by_cases hn : xs = []
    · subst hn
      exact ⟨x, rfl, List.mem_cons_self x [], by
        intro z hz
        rcases List.mem_cons.mp hz with rfl | hz
        · exact le_refl z
        · exact absurd hz (List.not_mem_nil z)⟩
    · obtain ⟨m, hm, hmem, hle⟩ := ih hn
      refine ⟨max x m, by simp [listMax, hm], ?_, ?_⟩
      · rcases max_choice x m with h | h <;> rw [h]
        · exact List.mem_cons_self x xs
        · exact List.mem_cons_of_mem x hmem
      · intro z hz
        rcases List.mem_cons.mp hz with rfl | hz
        · exact le_max_left z m
        · exact le_trans (hle z hz) (le_max_right x m)

theorem listMin_spec : ∀ l : List Int, l ≠ [] →
    ∃ m, listMin l = some m ∧ m ∈ l ∧ ∀ x ∈ l, m ≤ x := by
  intro l
  induction l with
  | nil => intro h; exact absurd rfl h
  | cons x xs ih =>
    intro _
    by_cases hn : xs = []
    · subst hn
      exact ⟨x, rfl, List.mem_cons_self x [], by
        intro z hz
        rcases List.mem_cons.mp hz with rfl | hz
        · exact le_refl z
        · exact absurd hz (List.not_mem_nil z)⟩
    · obtain ⟨m, hm, hmem, hle⟩ := ih hn
      refine ⟨min x m, by simp [listMin, hm], ?_, ?_⟩
      · rcases min_choice x m with h | h <;> rw [h]
        · exact List.mem_cons_self x xs
        · exact List.mem_cons_of_mem x hmem
      · intro z hz
        rcases List.mem_cons.mp hz with rfl | hz
        · exact min_le_left z m
        · exact le_trans (min_le_right x m) (hle z hz)

theorem seriesMin_of_ne_nil (s : List YV) (h : s ≠ []) : ∃ m, seriesMin s = some m := by
  have hmap : s.map (fun r => r.year) ≠ [] := by
    intro e
    exact h (List.map_eq_nil_iff.mp e)
  obtain ⟨m, hm, -, -⟩ := listMin_spec _ hmap
  exact ⟨m, hm⟩

theorem seriesMax_of_ne_nil (s : List YV) (h : s ≠ []) : ∃ m, seriesMax s = some m := by
  have hmap : s.map (fun r => r.year) ≠ [] := by
    intro e
    exact h (List.map_eq_nil_iff.mp e)
  obtain ⟨m, hm, -, -⟩ := listMax_spec _ hmap
  exact ⟨m, hm⟩

theorem forall2_mem_left {α β : Type} {R : α → β → Prop} :
    ∀ {l₁ : List α} {l₂ : List β}, List.Forall₂ R l₁ l₂ → ∀ a ∈ l₁, ∃ b ∈ l₂, R a b := by
  intro l₁ l₂ h
  induction h with
  | nil => intro a ha; exact absurd ha (List.not_mem_nil a)
  | @cons a' b' l₁' l₂' hR hF ih =>
    intro a ha
    rcases List.mem_cons.mp ha with rfl | ha
    · exact ⟨b', List.mem_cons_self b' l₂', hR⟩
    · obtain ⟨b, hb, hRb⟩ := ih a ha
      exact ⟨b, List.mem_cons_of_mem b' hb, hRb⟩

/-- C1: the computed bounds are exactly (max of the series minima, min of the
series maxima): the lower bound dominates every series' minimum year and is
attained by one of them, dually for the upper bound; and shrinking the series'
year ranges never widens the computed bounds. -/
theorem c1_intersection_bounds (ss : List (List YV))
    (hne : ss ≠ []) (hall : ∀ s ∈ ss, s ≠ []) :
    ∃ lo hi, year_min ss = some lo ∧ year_max ss = some hi ∧
      (∀ s ∈ ss, ∃ m, seriesMin s = some m ∧ m ≤ lo) ∧
      (∃ s ∈ ss, seriesMin s = some lo) ∧
      (∀ s ∈ ss, ∃ M, seriesMax s = some M ∧ hi ≤ M) ∧
      (∃ s ∈ ss, seriesMax s = some hi) ∧
      (∀ ss' : List (List YV), List.Forall₂ narrower ss ss' →
        (∀ s' ∈ ss', s' ≠ []) → ∀ lo' hi', year_min ss' = some lo' →
          year_max ss' = some hi' → lo ≤ lo' ∧ hi' ≤ hi) := by
  obtain ⟨s₀, hs₀⟩ := List.exists_mem_of_ne_nil ss hne
  obtain ⟨m₀, hm₀⟩ := seriesMin_of_ne_nil s₀ (hall s₀ hs₀)
  obtain ⟨M₀, hM₀⟩ := seriesMax_of_ne_nil s₀ (hall s₀ hs₀)
  have hfmin_ne : ss.filterMap seriesMin ≠ [] :=
    List.ne_nil_of_mem (List.mem_filterMap.mpr ⟨s₀, hs₀, hm₀⟩)
  have hfmax_ne : ss.filterMap seriesMax ≠ [] :=
    List.ne_nil_of_mem (List.mem_filterMap.mpr ⟨s₀, hs₀, hM₀⟩)
  obtain ⟨lo, hlo, hlomem, hlole⟩ := listMax_spec _ hfmin_ne
  obtain ⟨hi, hhi, hhimem, hhile⟩ := listMin_spec _ hfmax_ne
  refine ⟨lo, hi, hlo, hhi, ?_, ?_, ?_, ?_, ?_⟩
  · intro s hs
    obtain ⟨m, hm⟩ := seriesMin_of_ne_nil s (hall s hs)
    exact ⟨m, hm, hlole m (List.mem_filterMap.mpr ⟨s, hs, hm⟩)⟩
  · obtain ⟨s, hs, heq⟩ := List.mem_filterMap.mp hlomem
    exact ⟨s, hs, heq⟩
  · intro s hs
    obtain ⟨M, hM⟩ := seriesMax_of_ne_nil s (hall s hs)
    exact ⟨M, hM, hhile M (List.mem_filterMap.mpr ⟨s, hs, hM⟩)⟩
  · obtain ⟨s, hs, heq⟩ := List.mem_filterMap.mp hhimem
    exact ⟨s, hs, heq⟩
  · intro ss' hF hall' lo' hi' hlo' hhi'
    constructor
    · obtain ⟨sm, hsm, hsmlo⟩ := List.mem_filterMap.mp hlomem
      obtain ⟨s', hs', hnarrow⟩ := forall2_mem_left hF sm hsm
      obtain ⟨m', hm'⟩ := seriesMin_of_ne_nil s' (hall' s' hs')
      have h1 : lo ≤ m' := hnarrow.1 lo m' hsmlo hm'
      obtain ⟨lo'', hlo'', -, hle''⟩ := listMax_spec (ss'.filterMap seriesMin)
        (List.ne_nil_of_mem (List.mem_filterMap.mpr ⟨s', hs', hm'⟩))
      have : lo'' = lo' := Option.some_inj.mp (hlo''.symm.trans hlo')
      subst this
      exact le_trans h1 (hle'' m' (List.mem_filterMap.mpr ⟨s', hs', hm'⟩))
    · obtain ⟨sM, hsM, hsMhi⟩ := List.mem_filterMap.mp hhimem
      obtain ⟨s', hs', hnarrow⟩ := forall2_mem_left hF sM hsM
      obtain ⟨M', hM'⟩ := seriesMax_of_ne_nil s' (hall' s' hs')
      have h1 : M' ≤ hi := hnarrow.2 hi M' hsMhi hM'
      obtain ⟨hi'', hhi'', -, hle''⟩ := listMin_spec (ss'.filterMap seriesMax)
        (List.ne_nil_of_mem (List.mem_filterMap.mpr ⟨s', hs', hM'⟩))
      have : hi'' = hi' := Option.some_inj.mp (hhi''.symm.trans hhi')
      subst this
      exact le_trans (hle'' M' (List.mem_filterMap.mpr ⟨s', hs', hM'⟩)) h1

/-- C1 witness: the bounds theorem instantiated on two concrete series
([1990, 2000] and [1995, 2005]). -/
theorem c1_intersection_bounds_witness :
    ∃ lo hi, year_min exSeries = some lo ∧ year_max exSeries = some hi ∧
      (∀ s ∈ exSeries, ∃ m, seriesMin s = some m ∧ m ≤ lo) ∧
      (∃ s ∈ exSeries, seriesMin s = some lo) ∧
      (∀ s ∈ exSeries, ∃ M, seriesMax s = some M ∧ hi ≤ M) ∧
      (∃ s ∈ exSeries, seriesMax s = some hi) ∧
      (∀ ss' : List (List YV), List.Forall₂ narrower exSeries ss' →
        (∀ s' ∈ ss', s' ≠ []) → ∀ lo' hi', year_min ss' = some lo' →
          year_max ss' = some hi' → lo ≤ lo' ∧ hi' ≤ hi) :=
  c1_intersection_bounds exSeries (by decide) (by decide)

/-! ## C2: the ratio series -/

theorem countP_const_pred {α : Type} (b : Bool) (l : List α) :
    (l.countP fun _ => b) = if b then l.length else 0 := by
  cases b <;> simp

theorem mergeYear_countP (y : Int) (ww : List YV) :
    ∀ cn : List YV,
      ((mergeYear cn ww).countP fun p => p.1 == y)
        = (cn.countP fun r => r.year == y) * (ww.filter fun r => r.year == y).length := by
  intro cn
  induction cn with
  | nil => simp [mergeYear]
  | cons a cn ih =>
    rw [mergeYear, List.flatMap_cons, List.countP_append]
    rw [mergeYear] at ih
    have hcomp : ((fun p : Int × Cell × Cell => p.1 == y) ∘
        fun b : YV => (a.year, a.value, b.value)) = fun _ : YV => (a.year == y) := rfl
    rw [List.countP_map, hcomp, countP_const_pred, ih, List.countP_cons]
    by_cases hy : a.year = y
    · have hb : (a.year == y) = true := beq_iff_eq.mpr hy
      rw [hb, hy, Nat.add_mul]
      simp [Nat.add_comm]
    · have hb : (a.year == y) = false := beq_eq_false_iff_ne.mpr hy
      rw [hb]
      simp

theorem ratioRows_count (cn ww : List YV) (y : Int) :
    ((ratioRows cn ww).filter fun p => p.1 == y).length
      = (cn.countP fun r => r.year == y) * (ww.filter fun r => r.year == y).length := by
  rw [← List.countP_eq_length_filter, ratioRows, List.countP_map]
  exact mergeYear_countP y ww cn

theorem filter_year_len_nodup (y : Int) :
    ∀ s : List YV, (yearsOf s).Nodup →
      (s.filter fun r => r.year == y).length = if y ∈ yearsOf s then 1 else 0 := by
  intro s
  induction s with
  | nil => simp [yearsOf]
  | cons a s ih =>
    intro h
    rw [yearsOf, List.map_cons] at h
    obtain ⟨hnm, ht⟩ := List.nodup_cons.mp h
    by_cases hy : a.year = y
    · have hb : (a.year == y) = true := beq_iff_eq.mpr hy
      have hzero : (s.filter fun r => r.year == y) = [] := by
        rw [List.filter_eq_nil_iff]
        intro r hr he
        exact hnm (by
          rw [← hy] at he
          exact (beq_iff_eq.mp he) ▸ List.mem_map.mpr ⟨r, hr, rfl⟩)
      have hmem : y ∈ yearsOf (a :: s) := by
        rw [yearsOf, List.map_cons]
        exact hy ▸ List.mem_cons_self a.year _
      simp [List.filter_cons, hb, hzero, hmem]
    · have hb : (a.year == y) = false := beq_eq_false_iff_ne.mpr hy
      have hmem : (y ∈ yearsOf (a :: s)) ↔ (y ∈ yearsOf s) := by
        rw [yearsOf, List.map_cons, List.mem_cons]
        exact or_iff_right fun e => hy e.symm
      rw [List.filter_cons, hb]
      simp only [Bool.false_eq_true, if_false]
      rw [ih ht]
      simp only [hmem]

/-- C2 (amended): assuming each windowed series has at most one row per year
(always true of the world series as built by `groupby`; true of the China
series when the source has no duplicate China rows), the ratio output has
exactly one row per year present in both windowed series, with value
(country value / world value) × 100, and no row for a year missing from
either; with duplicate years the inner join instead emits one row per matching
pair (see the counterexample). -/
theorem c2_ratio_inner_join (yr0 yr1 : Int) (cn world : List YV)
    (h1 : (yearsOf (window yr0 yr1 cn)).Nodup)
    (h2 : (yearsOf (window yr0 yr1 world)).Nodup) :
    (∀ y : Int,
      ((ratioRows (window yr0 yr1 cn) (window yr0 yr1 world)).filter
          fun p => p.1 == y).length
        = if y ∈ yearsOf (window yr0 yr1 cn) ∧ y ∈ yearsOf (window yr0 yr1 world)
          then 1 else 0) ∧
    (∀ (y : Int) (c w : Rat), YV.mk y (some c) ∈ window yr0 yr1 cn →
      YV.mk y (some w) ∈ window yr0 yr1 world →
      (y, some (c / w * 100)) ∈ ratioRows (window yr0 yr1 cn) (window yr0 yr1 world)) := by
  constructor
  · intro y
    rw [ratioRows_count, List.countP_eq_length_filter,
      filter_year_len_nodup y (window yr0 yr1 cn) h1,
      filter_year_len_nodup y (window yr0 yr1 world) h2]
    by_cases hc : y ∈ yearsOf (window yr0 yr1 cn) <;>
      by_cases hw : y ∈ yearsOf (window yr0 yr1 world) <;>
      simp [hc, hw]
  · intro y c w hc hw
    refine List.mem_map.mpr ⟨(y, some c, some w), ?_, rfl⟩
    refine List.mem_flatMap.mpr ⟨⟨y, some c⟩, hc, ?_⟩
    exact List.mem_map.mpr ⟨⟨y, some w⟩, List.mem_filter.mpr ⟨hw, by simp⟩, rfl⟩

/-- C2 counterexample: with a duplicated China source row, 2000 is a year of
both windowed series, yet the ratio output carries two rows for it, not
exactly one. -/
theorem c2_ratio_counterexample :
    yearsOf (window 1900 2100 (co2_world t2)) = [2000] ∧
    2000 ∈ yearsOf (window 1900 2100 (co2_cn t2)) ∧
    ((ratioRows (window 1900 2100 (co2_cn t2)) (window 1900 2100 (co2_world t2))).filter
        fun p => p.1 == 2000).length = 2 := by
  refine ⟨by decide, by decide, by decide⟩

/-- C2 witness: the amended ratio theorem instantiated on one-point windowed
series. -/
theorem c2_ratio_inner_join_witness :
    (∀ y : Int,
      ((ratioRows (window 1900 2100 [YV.mk 2019 (some 10)])
            (window 1900 2100 [YV.mk 2019 (some 100)])).filter
          fun p => p.1 == y).length
        = if y ∈ yearsOf (window 1900 2100 [YV.mk 2019 (some 10)])
              ∧ y ∈ yearsOf (window 1900 2100 [YV.mk 2019 (some 100)])
          then 1 else 0) ∧
    (∀ (y : Int) (c w : Rat), YV.mk y (some c) ∈ window 1900 2100 [YV.mk 2019 (some 10)] →
      YV.mk y (some w) ∈ window 1900 2100 [YV.mk 2019 (some 100)] →
      (y, some (c / w * 100)) ∈ ratioRows (window 1900 2100 [YV.mk 2019 (some 10)])
        (window 1900 2100 [YV.mk 2019 (some 100)])) :=
  c2_ratio_inner_join 1900 2100 [YV.mk 2019 (some 10)] [YV.mk 2019 (some 100)]
    (by decide) (by decide)

/-! ## C4 and C5: the disaster loader -/

theorem rat_of_den_one (q : Rat) (h : q.den = 1) : ((q.num : Rat)) = q := by
  have h2 := Rat.num_div_den q
  rw [h] at h2
  simpa using h2

theorem num_lt_num_of_lt (q r : Rat) (hq : q.den = 1) (hr : r.den = 1) (h : q < r) :
    q.num < r.num := by
  rw [← rat_of_den_one q hq, ← rat_of_den_one r hr] at h
  exact_mod_cast h

theorem pyTrunc_den_one (q : Rat) (h : q.den = 1) : pyTrunc q = q.num := by
  rw [pyTrunc, h]
  exact Int.tdiv_one q.num

theorem pyTrunc_intCast (y : Int) : pyTrunc ((y : Rat)) = y := by
  rw [pyTrunc_den_one ((y : Rat)) rfl]
  rfl

theorem load_disasters_raw (t : Table) (j : Nat)
    (hnt : tidyShape t = false) (hj : findYearIdx t.cols = some j) :
    load_disasters t = some (rawCounts t j) := by
  simp [load_disasters, hnt, hj]

/-- C4: on a raw (non-tidy) disaster table whose located year column holds
integral years, the loader groups the China-filtered (when a `Country` column
exists — folded into `effRows`) event rows by year and counts them: the output
is strictly sorted by year, and carries the pair `(y, n)` exactly when `n` is
the positive number of effective event rows of year `y`.  Its witness checks
the spec's concrete example, producing `[(2008, 2), (2009, 1)]`. -/
theorem c4_raw_disaster_counts (t : Table) (j : Nat)
    (hnt : tidyShape t = false)
    (hj : findYearIdx t.cols = some j)
    (hint : ∀ p ∈ rawYearRows t j, (p.1).den = 1) :
    ∃ out, load_disasters t = some out ∧
      ((out.map fun e => e.1).Pairwise fun a b => a < b) ∧
      (∀ (y : Int) (n : Rat), ((y, PValue.num n) ∈ out ↔
        0 < ((effRows t j).filter fun p => p.1 == (y : Rat)).length ∧
          n = (((effRows t j).filter fun p => p.1 == (y : Rat)).length : Rat))) := by
  have hden : ∀ q ∈ (effRows t j).map fun p => p.1, q.den = 1 := by
    intro q hq
    obtain ⟨p, hp, rfl⟩ := List.mem_map.mp hq
    exact hint p (List.mem_of_mem_filter hp)
  have hys_mem : ∀ q ∈ sortBy id ((effRows t j).map fun p => p.1).dedup,
      q ∈ (effRows t j).map fun p => p.1 := by
    intro q hq
    exact List.mem_dedup.mp ((sortBy_perm id _).mem_iff.mp hq)
  refine ⟨rawCounts t j, load_disasters_raw t j hnt hj, ?_, ?_⟩
  · have hsorted := sortBy_pairwise (id : Rat → Rat) ((effRows t j).map fun p => p.1).dedup
    have hnd : (sortBy id ((effRows t j).map fun p => p.1).dedup).Nodup :=
      ((sortBy_perm id _).nodup_iff).mpr (List.nodup_dedup _)
    have hlt : (sortBy id ((effRows t j).map fun p => p.1).dedup).Pairwise
        fun a b => a < b :=
      (hsorted.and hnd).imp fun h => lt_of_le_of_ne h.1 h.2
    rw [rawCounts, List.map_map]
    refine List.pairwise_map.mpr ?_
    refine List.Pairwise.imp_of_mem ?_ hlt
    intro q q' hq hq' hlt'
    show pyTrunc q < pyTrunc q'
    rw [pyTrunc_den_one q (hden q (hys_mem q hq)),
      pyTrunc_den_one q' (hden q' (hys_mem q' hq'))]
    exact num_lt_num_of_lt q q' (hden q (hys_mem q hq)) (hden q' (hys_mem q' hq')) hlt'
  · intro y n
    constructor
    · intro hmem
      rw [rawCounts] at hmem
      obtain ⟨q, hq, he⟩ := List.mem_map.mp hmem
      have h1 : pyTrunc q = y := congrArg Prod.fst he
      have h2 : ((((effRows t j).filter fun p => p.1 == q).length : Nat) : Rat) = n := by
        have := congrArg Prod.snd he
        exact PValue.num.inj this
      have hd : q.den = 1 := hden q (hys_mem q hq)
      have hq_cast : ((y : Rat)) = q := by
        rw [← h1, pyTrunc_den_one q hd]
        exact rat_of_den_one q hd
      obtain ⟨p, hp, hpq⟩ := List.mem_map.mp (hys_mem q hq)
      have hpmem : p ∈ (effRows t j).filter fun p => p.1 == (y : Rat) :=
        List.mem_filter.mpr ⟨hp, beq_iff_eq.mpr (hpq.trans hq_cast.symm)⟩
      refine ⟨List.length_pos.mpr (List.ne_nil_of_mem hpmem), ?_⟩
      rw [← h2]
      congr 1
      rw [hq_cast]
    · rintro ⟨hpos, hn⟩
      obtain ⟨p, hp⟩ := List.exists_mem_of_ne_nil _
        (List.ne_nil_of_length_pos hpos)
      obtain ⟨hpE, hpy⟩ := List.mem_filter.mp hp
      have hyq : ((y : Rat)) ∈ (effRows t j).map fun p => p.1 :=
        List.mem_map.mpr ⟨p, hpE, beq_iff_eq.mp hpy⟩
      have hys : ((y : Rat)) ∈ sortBy id ((effRows t j).map fun p => p.1).dedup :=
        (sortBy_perm id _).mem_iff.mpr (List.mem_dedup.mpr hyq)
      rw [rawCounts]
      refine List.mem_map.mpr ⟨(y : Rat), hys, ?_⟩
      rw [pyTrunc_intCast, hn]

/-- C4 witness: the raw-aggregation theorem instantiated on the spec's example
table, together with the example's exact output. -/
theorem c4_raw_disaster_counts_witness :
    load_disasters t4 = some [(2008, PValue.num 2), (2009, PValue.num 1)] ∧
    (∃ out, load_disasters t4 = some out ∧
      ((out.map fun e => e.1).Pairwise fun a b => a < b) ∧
      (∀ (y : Int) (n : Rat), ((y, PValue.num n) ∈ out ↔
        0 < ((effRows t4 0).filter fun p => p.1 == (y : Rat)).length ∧
          n = (((effRows t4 0).filter fun p => p.1 == (y : Rat)).length : Rat)))) :=
  ⟨by decide, c4_raw_disaster_counts t4 0 (by decide) (by decide) (by decide)⟩

/-- C5 (amended): with no count-like column, a table is aborted on if and only
if no column normalises to "start year" or "year"; in particular a table with
a `Year` column (the claim's case) is handled by the raw grouping path, not
the fatal path. -/
theorem c5_fatal_path (t : Table) (h : tidyShape t = false) :
    (load_disasters t = none ↔ findYearIdx t.cols = none) ∧
    ("Year" ∈ t.cols → load_disasters t ≠ none) := by
  constructor
  · cases hf : findYearIdx t.cols with
    | some j => simp [load_disasters, h, hf]
    | none => simp [load_disasters, h, hf]
  · intro hmem
    cases hf : findYearIdx t.cols with
    | some j => simp [load_disasters, h, hf]
    | none =>
      exfalso
      rw [findYearIdx] at hf
      have hall := List.findIdx?_eq_none_iff.mp hf
      have hy : isYearName "Year" = true := by decide
      have := hall "Year" hmem
      rw [hy] at this
      exact absurd this (by simp)

/-- C5 counterexample: a disaster table with a `Year` column and no count-like
column is aggregated by the raw path (rows counted per year) instead of
reaching the fatal abort path the claim asserts. -/
theorem c5_counterexample :
    load_disasters t5 ≠ none ∧
    load_disasters t5 = some [(2008, PValue.num 2), (2009, PValue.num 1)] :=
  ⟨by decide, by decide⟩

/-- C5 witness: the amended fatal-path theorem instantiated on the
counterexample table. -/
theorem c5_fatal_path_witness :
    (load_disasters t5 = none ↔ findYearIdx t5.cols = none) ∧
    ("Year" ∈ t5.cols → load_disasters t5 ≠ none) :=
  c5_fatal_path t5 (by decide)

/-! ## C10: the world CO₂ total -/

theorem block_filter_eq_nil (rows : List (String × List Cell)) (y : Int) (p : Nat × Label)
    (hne : numericTrunc p.2 ≠ some y) :
    ((colBlock rows p).filter fun r => r.year == y) = [] := by
  cases hh : numericTrunc p.2 with
  | none => simp [colBlock, hh]
  | some y'' =>
    have hy : (y'' == y) = false :=
      beq_eq_false_iff_ne.mpr fun e => hne (hh.trans (by rw [e]))
    rw [List.filter_eq_nil_iff]
    intro r hr
    simp only [colBlock, hh] at hr
    obtain ⟨r₀, -, rfl⟩ := List.mem_map.mp hr
    simp [hy]

theorem flatMap_nil_of_all (rows : List (String × List Cell)) (y : Int) :
    ∀ l : List (Nat × Label),
      (∀ p' ∈ l, ((colBlock rows p').filter fun r => r.year == y) = []) →
      ((l.flatMap (colBlock rows)).filter fun r => r.year == y) = []
  | [], _ => rfl
  | p :: l, h => by
    rw [List.flatMap_cons, List.filter_append, h p (List.mem_cons_self p l),
      flatMap_nil_of_all rows y l (fun p' hp' => h p' (List.mem_cons_of_mem p hp')),
      List.nil_append]

theorem filter_blocks_eq (rows : List (String × List Cell)) (y : Int) (j : Nat) (c : Label)
    (hc : numericTrunc c = some y) :
    ∀ l : List (Nat × Label), (l.Pairwise fun a b => a.1 < b.1) → (j, c) ∈ l →
      (∀ p ∈ l, numericTrunc p.2 = some y → p = (j, c)) →
      ((l.flatMap (colBlock rows)).filter fun r => r.year == y)
        = rows.map fun r => TidyRow.mk r.1 y (r.2.getD j none) := by
  intro l
  induction l with
  | nil => intro _ hmem _; exact absurd hmem (List.not_mem_nil _)
  | cons p l ih =>
    intro hpw hmem hu
    obtain ⟨hphead, htail⟩ := List.pairwise_cons.mp hpw
    rw [List.flatMap_cons, List.filter_append]
    rcases List.mem_cons.mp hmem with heq | hmem'
    · have htail_nil : ((l.flatMap (colBlock rows)).filter fun r => r.year == y) = [] := by
        apply flatMap_nil_of_all
        intro p' hp'
        apply block_filter_eq_nil
        intro he
        have hpc := hu p' (List.mem_cons_of_mem p hp') he
        have hlt := hphead p' hp'
        rw [hpc, ← heq] at hlt
        exact lt_irrefl _ hlt
      rw [htail_nil, List.append_nil, ← heq]
      simp only [colBlock, hc]
      exact List.filter_eq_self.mpr fun a ha => by
        obtain ⟨r₀, -, rfl⟩ := List.mem_map.mp ha
        exact beq_self_eq_true y
    · have hhead_nil : ((colBlock rows p).filter fun r => r.year == y) = [] := by
        apply block_filter_eq_nil
        intro he
        have hpc := hu p (List.mem_cons_self p l) he
        have hlt := hphead (j, c) hmem'
        rw [hpc] at hlt
        exact lt_irrefl _ hlt
      rw [hhead_nil, List.nil_append]
      exact ih htail hmem' fun p' hp' he => hu p' (List.mem_cons_of_mem p hp') he

theorem mem_enumFrom_le' {α : Type} :
    ∀ (l : List α) (n : Nat) (p : Nat × α), p ∈ List.enumFrom n l → n ≤ p.1
  | [], _, p, h => absurd h (List.not_mem_nil p)
  | a :: l, n, p, h => by
    rcases List.mem_cons.mp h with rfl | hm
    · exact le_refl n
    · exact le_trans (Nat.le_succ n) (mem_enumFrom_le' l (n + 1) p hm)

theorem enumFrom_pairwise_fst {α : Type} :
    ∀ (l : List α) (n : Nat), (List.enumFrom n l).Pairwise fun a b => a.1 < b.1
  | [], _ => List.Pairwise.nil
  | a :: l, n => by
    refine List.pairwise_cons.mpr ⟨?_, enumFrom_pairwise_fst l (n + 1)⟩
    intro b hb
    exact lt_of_lt_of_le (Nat.lt_succ_self n) (mem_enumFrom_le' l (n + 1) b hb)

theorem yearIdxCols_pairwise_fst (cols : List Label) :
    (yearIdxCols cols).Pairwise fun a b => a.1 < b.1 :=
  List.Pairwise.sublist (List.filter_sublist _) (enumFrom_pairwise_fst cols 0)

theorem find?_beq_of_mem (y : Int) :
    ∀ l : List Int, y ∈ l → (l.find? fun x => x == y) = some y
  | [], h => absurd h (List.not_mem_nil y)
  | x :: l, h => by
    by_cases hb : x = y
    · subst hb
      exact List.find?_cons_of_pos _ (beq_self_eq_true x)
    · rw [List.find?_cons_of_neg]
      · exact find?_beq_of_mem y l (by
          rcases List.mem_cons.mp h with he | hm
          · exact absurd he.symm hb
          · exact hm)
      · simp [hb]

/-- C10: at a year `y` detected through exactly one coercible year column, the
world series' entry is the sum over all input rows — every identifier,
duplicates and non-country aggregates included — of that row's year-`y` cell
(missing cells contributing nothing) divided by 1000. -/
theorem c10_world_total (t : WideTable) (y : Int) (j : Nat) (c : Label)
    (hrows : t.rows ≠ [])
    (hjc : (j, c) ∈ yearIdxCols t.cols)
    (hc : numericTrunc c = some y)
    (huniq : ∀ p ∈ yearIdxCols t.cols, numericTrunc p.2 = some y → p = (j, c)) :
    ((co2_world t).find? fun r => r.year == y)
      = some ⟨y, some ((t.rows.map fun r => (r.2.getD j none).getD 0 / 1000).sum)⟩ := by
  obtain ⟨r₀, hr₀⟩ := List.exists_mem_of_ne_nil t.rows hrows
  have hblock : TidyRow.mk r₀.1 y (r₀.2.getD j none)
      ∈ (yearIdxCols t.cols).flatMap (colBlock t.rows) := by
    refine List.mem_flatMap.mpr ⟨(j, c), hjc, ?_⟩
    simp only [colBlock, hc]
    exact List.mem_map.mpr ⟨r₀, hr₀, rfl⟩
  have hy_kept : y ∈ (meltKept t).map fun r => r.year := by
    rw [meltKept_eq_blocks]
    exact List.mem_map.mpr ⟨_, hblock, rfl⟩
  have hy_mt : y ∈ (mtRows t).map fun r => r.year := by
    rw [mtRows, List.map_map]
    have hcomp : ((fun r : TidyRow => r.year) ∘
        fun r : TidyRow => { r with value := r.value.map fun q => q / 1000 })
        = fun r : TidyRow => r.year := rfl
    rw [hcomp, meltYears]
    exact ((sortBy_perm (fun r : TidyRow => r.year)
      (meltKept t)).map fun r : TidyRow => r.year).mem_iff.mpr hy_kept
  have hyB : y ∈ distinctYears (mtRows t) := by
    rw [distinctYears]
    exact (sortBy_perm id _).mem_iff.mpr (List.mem_dedup.mpr hy_mt)
  have hfilter := filter_blocks_eq t.rows y j c hc (yearIdxCols t.cols)
    (yearIdxCols_pairwise_fst t.cols) hjc huniq
  have hsum : groupTotal (mtRows t) y
      = (t.rows.map fun r => (r.2.getD j none).getD 0 / 1000).sum := by
    rw [groupTotal, mtRows, meltYears, List.filter_map, List.map_map]
    have hpred : ((fun r : TidyRow => r.year == y) ∘
        fun r : TidyRow => { r with value := r.value.map fun q => q / 1000 })
        = fun r : TidyRow => r.year == y := rfl
    rw [hpred]
    have hperm : ((sortBy (fun r : TidyRow => r.year) (meltKept t)).filter
          fun r : TidyRow => r.year == y).Perm
        ((meltKept t).filter fun r : TidyRow => r.year == y) :=
      List.Perm.filter _ (sortBy_perm _ _)
    rw [(hperm.map _).sum_eq, meltKept_eq_blocks, hfilter, List.map_map]
    refine congrArg List.sum (List.map_congr_left fun r _ => ?_)
    show (Option.map (fun q => q / 1000) (r.2.getD j none)).getD 0
        = (r.2.getD j none).getD 0 / 1000
    cases hcell : r.2.getD j none with
    | none => simp
    | some q => simp
  rw [co2_world, List.find?_map]
  have hcomp2 : ((fun r : YV => r.year == y) ∘
      fun y' : Int => YV.mk y' (some (groupTotal (mtRows t) y')))
      = fun y' : Int => y' == y := rfl
  rw [hcomp2, find?_beq_of_mem y _ hyB]
  simp [hsum]

/-- C10 witness: the world-total theorem instantiated on a two-row CO₂ table
(China and USA) with one year column. -/
theorem c10_world_total_witness :
    ((co2_world t10).find? fun r => r.year == 2019)
      = some ⟨2019, some ((t10.rows.map fun r => (r.2.getD 0 none).getD 0 / 1000).sum)⟩ :=
  c10_world_total t10 2019 0 (Label.num 2019) (by decide) (by decide) (by decide) (by decide)

end Dashboard
